import Mathlib

/-!
Verification development for the rql-to-mongo pipeline: a shallow embedding of
the RQL parser (src/rql/parser.ts), the literal converters (src/rql/converters.ts),
the grammar validator (validateRQL) and the criteria compiler (RQLToMongo,
src/index.ts), together with theorems settling the specification claims.

JavaScript values are embedded as an inductive `JSValue` with exact rational
numbers in place of IEEE doubles (all numeric literals exercised here are small
and exact).  JavaScript exceptions are embedded as `Except JErr`.  Mutable
objects (the MongoQuery under construction and the current-criteria mapping)
are embedded as explicitly threaded values; JavaScript object key insertion
order is preserved by using association lists.
-/

namespace RqlMongo

/-- Exceptions of the pipeline.  The source only ever constructs
`Error` (jsError), `RQLParseError`, `RQLConversionError` and
`RQLValidationError`; `uriError` and `typeError` model the runtime errors
`decodeURIComponent` and missing-method calls can raise; `notModelled` marks
corners of the JavaScript semantics (general `Date`-string parsing, composite
`JSON.parse` input, string/array `concat` coercion on a criteria field named
like the or-tag) that no pipeline path exercised by the claims can reach. -/
inductive JErr where
  | jsError (msg : String)
  | parseError (msg : String)
  | conversionError (msg : String)
  | validationError (msg : String)
  | uriError
  | typeError (msg : String)
  | notModelled (msg : String)
  | fuel
deriving DecidableEq, Repr

/-- JavaScript runtime values reachable in this pipeline.  Numbers are exact
scaled decimals, `num m e` denoting `m * 10^e` — every literal this pipeline
decodes is produced with a canonical scale by `decimalValue`, and all the
claims exercise plain integers, where `e = 0` (`Infinity` and `-Infinity` are
separate constructors; no pipeline path constructs `NaN`: `converters.number`
throws instead of returning it).  Arrays appear at the argument level
(`RQLArg.arr`), mirroring how the source only ever builds them from
parenthesized argument lists. -/
inductive JSValue where
  | num (mant : Int) (exp10 : Int)
  | inf
  | negInf
  | str (s : String)
  | bool (b : Bool)
  | null
  | undef
  | date (ms : Int)
  | regex (source : String) (ignoreCase : Bool)
deriving DecidableEq, Repr

/-- JavaScript falsiness: `0`, the empty string, `false`, `null`, `undefined`
are falsy; every other value reachable here is truthy. -/
def jsFalsy : JSValue → Bool
  | .num m _ => m = 0
  | .str s => s = ""
  | .bool b => !b
  | .null => true
  | .undef => true
  | _ => false

def jsTruthy (v : JSValue) : Bool := !jsFalsy v

/-- Whether `typeof v === 'object'` in JavaScript: `null`, arrays, dates and
regular expressions all answer `'object'`. -/
def jsTypeofObject : JSValue → Bool
  | .null | .date _ | .regex _ _ => true
  | _ => false

/-- Whether `typeof v === 'number'`. -/
def jsTypeofNumber : JSValue → Bool
  | .num _ _ | .inf | .negInf => true
  | _ => false

/-- Whether `typeof v === 'string'`. -/
def jsTypeofString : JSValue → Bool
  | .str _ => true
  | _ => false

/-- Whitespace stripped by `Number()` and `String.prototype.trim` (ASCII
whitespace plus no-break space; the exotic Unicode space classes are outside
the modelled fragment). -/
def isJsSpace (c : Char) : Bool :=
  c = ' ' ∨ c = '\t' ∨ c = '\n' ∨ c = '\r' ∨ c = '\x0b' ∨ c = '\x0c' ∨ c = ' '

def jsTrimChars (l : List Char) : List Char :=
  ((l.dropWhile isJsSpace).reverse.dropWhile isJsSpace).reverse

def jsTrim (s : String) : String := String.mk (jsTrimChars s.data)

/-- ASCII lower-casing (`String.prototype.toLowerCase`; non-ASCII letters are
outside the modelled fragment). -/
def jsToLower (s : String) : String :=
  String.mk (s.data.map fun c => if 'A' ≤ c ∧ c ≤ 'Z' then Char.ofNat (c.toNat + 32) else c)

def digitVal (c : Char) : Nat := c.toNat - '0'.toNat

def digitsToNat (l : List Char) : Nat :=
  l.foldl (fun a c => a * 10 + digitVal c) 0

def hexDigitVal (c : Char) : Option Nat :=
  if '0' ≤ c ∧ c ≤ '9' then some (c.toNat - '0'.toNat)
  else if 'a' ≤ c ∧ c ≤ 'f' then some (c.toNat - 'a'.toNat + 10)
  else if 'A' ≤ c ∧ c ≤ 'F' then some (c.toNat - 'A'.toNat + 10)
  else none

def isHexDigit (c : Char) : Bool := (hexDigitVal c).isSome

def hexDigitsToNat (l : List Char) : Nat :=
  l.foldl (fun a c => a * 16 + (hexDigitVal c).getD 0) 0

/-- Helper for the decimal branch of `Number()`: mantissa digits, fractional
digits and a signed exponent give an exact scaled decimal. -/
def decimalValue (sgn : Int) (intPart fracPart : List Char) (e : Int) : JSValue :=
  .num (sgn * (digitsToNat intPart * (10 : Int) ^ fracPart.length + digitsToNat fracPart))
    (e - fracPart.length)

/-- Model of the JavaScript `Number(str)` conversion on the grammar it accepts:
surrounding whitespace is trimmed, the empty string is `0`, `0x`/`0o`/`0b`
prefixes give unsigned radix literals, and otherwise an optionally signed
decimal literal (digits, optional fraction, optional exponent) or `Infinity`.
`none` stands for `NaN` (which `converters.number` turns into a throw). -/
def jsNumber (s : String) : Option JSValue :=
  let l := jsTrimChars s.data
  match l with
  | [] => some (.num 0 0)
  | '0' :: x :: rest =>
    if x = 'x' ∨ x = 'X' then
      if rest ≠ [] ∧ rest.all isHexDigit then some (.num (hexDigitsToNat rest) 0) else none
    else if x = 'o' ∨ x = 'O' then
      if rest ≠ [] ∧ rest.all (fun c => '0' ≤ c ∧ c ≤ '7') then
        some (.num (rest.foldl (fun a c => a * 8 + digitVal c) 0) 0) else none
    else if x = 'b' ∨ x = 'B' then
      if rest ≠ [] ∧ rest.all (fun c => c = '0' ∨ c = '1') then
        some (.num (rest.foldl (fun a c => a * 2 + digitVal c) 0) 0) else none
    else jsNumberDecimal l
  | _ => jsNumberDecimal l
where
  jsNumberDecimal (l : List Char) : Option JSValue :=
    let (sgn, l2) : Int × List Char :=
      match l with
      | '+' :: t => (1, t)
      | '-' :: t => (-1, t)
      | _ => (1, l)
    if l2 = "Infinity".data then some (if sgn = 1 then .inf else .negInf)
    else
      let intPart := l2.takeWhile Char.isDigit
      let r1 := l2.dropWhile Char.isDigit
      let (fracPart, r3) : List Char × List Char :=
        match r1 with
        | '.' :: r2 => (r2.takeWhile Char.isDigit, r2.dropWhile Char.isDigit)
        | _ => ([], r1)
      if intPart = [] ∧ fracPart = [] then none
      else
        match r3 with
        | [] => some (decimalValue sgn intPart fracPart 0)
        | e :: r4 =>
          if e = 'e' ∨ e = 'E' then
            let (esgn, r5) : Int × List Char :=
              match r4 with
              | '+' :: t => (1, t)
              | '-' :: t => (-1, t)
              | _ => (1, r4)
            let edig := r5.takeWhile Char.isDigit
            if edig = [] ∨ r5.dropWhile Char.isDigit ≠ [] then none
            else some (decimalValue sgn intPart fracPart (esgn * digitsToNat edig))
          else none

/-- Tokenize a percent-encoded string: plain characters stay characters, each
`%HH` hex pair becomes a byte.  `none` models the `URIError` thrown by
`decodeURIComponent` on a `%` not followed by two hex digits. -/
def percentTokens : List Char → Option (List (Char ⊕ Nat))
  | [] => some []
  | '%' :: h1 :: h2 :: r =>
    match hexDigitVal h1, hexDigitVal h2 with
    | some a, some b => (percentTokens r).map (.inr (a * 16 + b) :: ·)
    | _, _ => none
  | '%' :: _ => none
  | c :: r => (percentTokens r).map (.inl c :: ·)

/-- Reassemble the byte runs produced by percent-decoding as UTF-8, with the
same validity constraints `decodeURIComponent` enforces (no overlong, no
surrogate, no lone continuation byte); failure models `URIError`. -/
def utf8Assemble : List (Char ⊕ Nat) → Option (List Char)
  | [] => some []
  | .inl c :: r => (utf8Assemble r).map (c :: ·)
  | .inr b :: r =>
    if b < 0x80 then (utf8Assemble r).map (Char.ofNat b :: ·)
    else if 0xC2 ≤ b ∧ b ≤ 0xDF then
      match r with
      | .inr b2 :: r2 =>
        if 0x80 ≤ b2 ∧ b2 ≤ 0xBF then
          (utf8Assemble r2).map (Char.ofNat ((b - 0xC0) * 64 + (b2 - 0x80)) :: ·)
        else none
      | _ => none
    else if 0xE0 ≤ b ∧ b ≤ 0xEF then
      match r with
      | .inr b2 :: .inr b3 :: r2 =>
        let lo2 := if b = 0xE0 then 0xA0 else 0x80
        let hi2 := if b = 0xED then 0x9F else 0xBF
        if lo2 ≤ b2 ∧ b2 ≤ hi2 ∧ 0x80 ≤ b3 ∧ b3 ≤ 0xBF then
          (utf8Assemble r2).map
            (Char.ofNat ((b - 0xE0) * 4096 + (b2 - 0x80) * 64 + (b3 - 0x80)) :: ·)
        else none
      | _ => none
    else if 0xF0 ≤ b ∧ b ≤ 0xF4 then
      match r with
      | .inr b2 :: .inr b3 :: .inr b4 :: r2 =>
        let lo2 := if b = 0xF0 then 0x90 else 0x80
        let hi2 := if b = 0xF4 then 0x8F else 0xBF
        if lo2 ≤ b2 ∧ b2 ≤ hi2 ∧ 0x80 ≤ b3 ∧ b3 ≤ 0xBF ∧ 0x80 ≤ b4 ∧ b4 ≤ 0xBF then
          (utf8Assemble r2).map
            (Char.ofNat ((b - 0xF0) * 262144 + (b2 - 0x80) * 4096 + (b3 - 0x80) * 64 + (b4 - 0x80)) :: ·)
        else none
      | _ => none
    else none

/-- Model of `decodeURIComponent` (converters.string); `none` is `URIError`. -/
def decodeURIComponentModel (s : String) : Option String :=
  ((percentTokens s.data).bind utf8Assemble).map String.mk

/-- Whitespace `JSON.parse` skips around a value. -/
def isJsonWs (c : Char) : Bool := c = ' ' ∨ c = '\t' ∨ c = '\n' ∨ c = '\r'

/-- Scan the remainder of a JSON string literal (the opening quote already
consumed): handles the JSON escapes, rejects raw control characters, and
rejects `\u` escapes in the surrogate range (which `JSON.parse` would accept
as lone UTF-16 surrogates — outside the modelled fragment).  Returns the
decoded content and the input following the closing quote. -/
def jsonStringRest : List Char → Option (List Char × List Char)
  | [] => none
  | '"' :: r => some ([], r)
  | '\\' :: e :: r =>
    if e = 'u' then
      match r with
      | h1 :: h2 :: h3 :: h4 :: r2 =>
        match hexDigitVal h1, hexDigitVal h2, hexDigitVal h3, hexDigitVal h4 with
        | some a, some b, some c, some d =>
          let code := ((a * 16 + b) * 16 + c) * 16 + d
          if 0xD800 ≤ code ∧ code ≤ 0xDFFF then none
          else (jsonStringRest r2).map (fun p => (Char.ofNat code :: p.1, p.2))
        | _, _, _, _ => none
      | _ => none
    else
      let dec : Option Char :=
        if e = '"' then some '"' else if e = '\\' then some '\\'
        else if e = '/' then some '/' else if e = 'b' then some '\x08'
        else if e = 'f' then some '\x0c' else if e = 'n' then some '\n'
        else if e = 'r' then some '\r' else if e = 't' then some '\t' else none
      match dec with
      | some c => (jsonStringRest r).map (fun p => (c :: p.1, p.2))
      | none => none
  | c :: r =>
    if c.toNat < 0x20 then none
    else (jsonStringRest r).map (fun p => (c :: p.1, p.2))

/-- JSON number grammar (exact rationals): optional minus, integer part with
no leading zero (except a lone `0`), optional fraction, optional exponent. -/
def jsonNumber (l : List Char) : Option (JSValue × List Char) :=
  let (sgn, l1) : Int × List Char := match l with | '-' :: t => (-1, t) | _ => (1, l)
  let intPart := l1.takeWhile Char.isDigit
  let r1 := l1.dropWhile Char.isDigit
  if intPart = [] then none
  else if intPart.length > 1 ∧ intPart.head? = some '0' then none
  else
    let (fracPart, r3) : List Char × List Char :=
      match r1 with
      | '.' :: r2 => (r2.takeWhile Char.isDigit, r2.dropWhile Char.isDigit)
      | _ => ([], r1)
    if r1 ≠ r3 ∧ fracPart = [] then none
    else
      match r3 with
      | e :: r4 =>
        if e = 'e' ∨ e = 'E' then
          let (esgn, r5) : Int × List Char :=
            match r4 with
            | '+' :: t => (1, t)
            | '-' :: t => (-1, t)
            | _ => (1, r4)
          let edig := r5.takeWhile Char.isDigit
          if edig = [] then none
          else some (decimalValue sgn intPart fracPart (esgn * digitsToNat edig), r5.dropWhile Char.isDigit)
        else some (decimalValue sgn intPart fracPart 0, r3)
      | [] => some (decimalValue sgn intPart fracPart 0, r3)

/-- Model of `JSON.parse` (converters.json) on scalar JSON documents: string
literals (the only shape `converters.auto` ever builds, wrapping the input in
double quotes), the literals `true`/`false`/`null`, and numbers.  Composite
documents (arrays, objects) are outside the modelled fragment. -/
def jsonParseModel (s : String) : Except JErr JSValue :=
  let l := s.data.dropWhile isJsonWs
  let finish : JSValue × List Char → Except JErr JSValue := fun (v, rest) =>
    if rest.dropWhile isJsonWs = [] then .ok v
    else .error (.conversionError "Unexpected token in JSON")
  match l with
  | '"' :: r =>
    match jsonStringRest r with
    | some (content, rest) => finish (.str (String.mk content), rest)
    | none => .error (.conversionError "Unterminated string in JSON")
  | 't' :: 'r' :: 'u' :: 'e' :: r => finish (.bool true, r)
  | 'f' :: 'a' :: 'l' :: 's' :: 'e' :: r => finish (.bool false, r)
  | 'n' :: 'u' :: 'l' :: 'l' :: r => finish (.null, r)
  | c :: _ =>
    if c = '[' ∨ c = Char.ofNat 123 then .error (.notModelled "JSON composite values")
    else
      match jsonNumber l with
      | some p => finish p
      | none => .error (.conversionError "Unexpected token in JSON")
  | [] => .error (.conversionError "Unexpected end of JSON input")

/-- Model of `String.prototype.substring(a, b)`: indices are clamped to the
string length and swapped when `a > b` (string indices are character counts;
all strings the pipeline manipulates here are ASCII, where this coincides with
the UTF-16 unit count JavaScript uses). -/
def substringJS (s : String) (a b : Nat) : String :=
  let n := s.length
  let x := min a n
  let y := min b n
  String.mk ((s.data.drop (min x y)).take (max x y - min x y))

/-- Model of `str.replace('\\:', ':')`: replaces the first occurrence of the
two-character sequence backslash-colon. -/
def replaceFirstEscColon : List Char → List Char
  | [] => []
  | '\\' :: ':' :: r => ':' :: r
  | c :: r => c :: replaceFirstEscColon r

/-- The `autoConverted` literal table of converters.ts. -/
def autoConverted (s : String) : Option JSValue :=
  if s = "true" then some (.bool true)
  else if s = "false" then some (.bool false)
  else if s = "null" then some .null
  else if s = "undefined" then some .undef
  else if s = "Infinity" then some .inf
  else if s = "-Infinity" then some .negInf
  else none

/-- Days from the Unix epoch to the first `d`-th day of month index `mi`
(0-based, arbitrary overflow normalized the way `Date.UTC` does) of year `y`;
standard civil-from-days arithmetic. -/
def daysFromCivil (y mi d : Int) : Int :=
  let y1 := y + Int.fdiv mi 12
  let m := Int.emod mi 12 + 1
  let y2 := if m ≤ 2 then y1 - 1 else y1
  let era := Int.fdiv y2 400
  let yoe := y2 - era * 400
  let mp := if m > 2 then m - 3 else m + 9
  let doy := Int.fdiv (153 * mp + 2) 5 + d - 1
  let doe := yoe * 365 + Int.fdiv yoe 4 - Int.fdiv yoe 100 + doy
  era * 146097 + doe - 719468

/-- Milliseconds since the epoch for the fields of the ISO pattern matched by
converters.date; mirrors `Date.UTC` including its normalization of
out-of-range components by plain arithmetic. -/
def utcMillis (y mo d h mi sec ms : Int) : Int :=
  daysFromCivil y (mo - 1) d * 86400000 + h * 3600000 + mi * 60000 + sec * 1000 + ms

/-- Parse the exact pattern `^(\d{4})-(\d{2})-(\d{2})T(\d{2}):(\d{2}):(\d{2})(\.(\d{1,3}))?Z$`
of converters.date and compute the `Date.UTC` value.  Note the quirk inherited
from the source: the fractional digits are taken as a plain number of
milliseconds (`.5` means 5 ms, not 500 ms). -/
def isoDateParse (s : String) : Option Int :=
  match s.data with
  | y1 :: y2 :: y3 :: y4 :: '-' :: m1 :: m2 :: '-' :: d1 :: d2 :: 'T'
      :: h1 :: h2 :: ':' :: i1 :: i2 :: ':' :: s1 :: s2 :: rest =>
    let lead := [y1, y2, y3, y4, m1, m2, d1, d2, h1, h2, i1, i2, s1, s2]
    if lead.all Char.isDigit then
      let y : Int := digitsToNat [y1, y2, y3, y4]
      let mo : Int := digitsToNat [m1, m2]
      let d : Int := digitsToNat [d1, d2]
      let h : Int := digitsToNat [h1, h2]
      let mi : Int := digitsToNat [i1, i2]
      let sec : Int := digitsToNat [s1, s2]
      match rest with
      | ['Z'] => some (utcMillis y mo d h mi sec 0)
      | '.' :: t =>
        let frac := t.takeWhile Char.isDigit
        if 1 ≤ frac.length ∧ frac.length ≤ 3 ∧ t.dropWhile Char.isDigit = ['Z'] then
          some (utcMillis y mo d h mi sec (digitsToNat frac))
        else none
      | _ => none
    else none
  | _ => none

/-- Largest `Date` magnitude (8.64e15 ms); beyond it `getTime()` is `NaN`. -/
def maxDateMillis : Int := 8640000000000000

/-- Integer value of a scaled decimal truncated toward zero, as `new Date(ms)`
applies `ToInteger` to its argument. -/
def numTrunc (m e : Int) : Int :=
  if 0 ≤ e then m * (10 : Int) ^ e.toNat else Int.tdiv m ((10 : Int) ^ (-e).toNat)

/-- The exact integer denoted by a scaled decimal, when there is one. -/
def numAsInt (m e : Int) : Option Int :=
  if 0 ≤ e then some (m * (10 : Int) ^ e.toNat)
  else if Int.emod m ((10 : Int) ^ (-e).toNat) = 0 then some (Int.tdiv m ((10 : Int) ^ (-e).toNat))
  else none

namespace converters

/-- converters.number: `Number(x)`, throwing `RQLConversionError` on `NaN`. -/
def number (s : String) : Except JErr JSValue :=
  match jsNumber s with
  | some v => .ok v
  | none => .error (.conversionError "Invalid number NaN")

/-- converters.string: `decodeURIComponent`. -/
def string (s : String) : Except JErr JSValue :=
  match decodeURIComponentModel s with
  | some d => .ok (.str d)
  | none => .error .uriError

/-- converters.boolean: lowercased comparison with `'true'`. -/
def boolean (s : String) : Except JErr JSValue := .ok (.bool (jsToLower s = "true"))

/-- converters.date: the exact ISO pattern is computed via `Date.UTC`; any
other string would fall to the general `new Date(string)` parser, which is
outside the modelled fragment. -/
def date (s : String) : Except JErr JSValue :=
  match isoDateParse s with
  | some ms =>
    if ms.natAbs ≤ maxDateMillis.natAbs then .ok (.date ms)
    else .error (.conversionError ("Invalid date " ++ s))
  | none => .error (.notModelled "general Date-string parsing")

/-- converters.epoch: `new Date(Number(x))`. -/
def epoch (s : String) : Except JErr JSValue :=
  match number s with
  | .error e => .error e
  | .ok (.num m e) =>
    let ms := numTrunc m e
    if ms.natAbs ≤ maxDateMillis.natAbs then .ok (.date ms)
    else .error (.conversionError ("Invalid date " ++ s))
  | .ok _ => .error (.conversionError ("Invalid date " ++ s))

/-- converters.isodate: left-pad to four digits, extend with the pattern
`0000-01-01T00:00:00Z`, then convert as a date. -/
def isodate (s : String) : Except JErr JSValue :=
  let padded := String.mk (("0000".data.take (4 - s.length)) ++ s.data)
  let full := padded ++ substringJS "0000-01-01T00:00:00Z" padded.length 20
  date full

/-- converters.re: case-insensitive regular expression from the URL-decoded
source (pattern validity of `new RegExp` is not modelled: every decoded source
is accepted); a `URIError` from decoding is caught and rethrown as
`RQLConversionError` because the decode happens inside the try block. -/
def re (s : String) : Except JErr JSValue :=
  match decodeURIComponentModel s with
  | some d => .ok (.regex d true)
  | none => .error (.conversionError "URI malformed")

/-- converters.RE: case-sensitive variant of `re`. -/
def RE (s : String) : Except JErr JSValue :=
  match decodeURIComponentModel s with
  | some d => .ok (.regex d false)
  | none => .error (.conversionError "URI malformed")

/-- converters.json: `JSON.parse`. -/
def json (s : String) : Except JErr JSValue := jsonParseModel s

/-- converters.auto: the literal table, then `Number` with its failure caught,
then the string fallback — URL-decode, and when the decoded value is wrapped
in single quotes re-decode the interior (of the raw string) as a JSON string
literal.  Failures of the fallback itself (URIError, JSON errors) escape. -/
def auto (s : String) : Except JErr JSValue :=
  match autoConverted s with
  | some v => .ok v
  | none =>
    match jsNumber s with
    | some v => .ok v
    | none =>
      match decodeURIComponentModel s with
      | none => .error .uriError
      | some strVal =>
        if strVal.data.get? 0 = some '\'' ∧ strVal.data.get? (s.length - 1) = some '\'' then
          json ("\"" ++ substringJS s 1 (s.length - 1) ++ "\"")
        else .ok (.str strVal)

end converters

/-- The character class `\w` of the source's regular expressions. -/
def isWordChar (c : Char) : Bool := c.isAlphanum ∨ c = '_'

/-- Test of the tag regex `/^\w+[^\\]:/` of stringToValue: some position `j`
holds `:`, the character before it is not a backslash, and at least one word
character precedes that. -/
def hasTagForm (l : List Char) : Bool :=
  (List.range (l.length + 1)).any fun j =>
    2 ≤ j ∧ l.get? j = some ':' ∧ (l.get? (j - 1)).all (· ≠ '\\')
      ∧ (l.take (j - 1)).all isWordChar ∧ l.take (j - 1) ≠ []

/-- Model of `str.split(':', 2)`: the text before the first colon and the text
between the first and second colons (or to the end). -/
def splitColon2 (l : List Char) : String × String :=
  let before := l.takeWhile (· ≠ ':')
  let after := (l.dropWhile (· ≠ ':')).drop 1
  (String.mk before, String.mk (after.takeWhile (· ≠ ':')))

/-- Converter dispatch by tag name, mirroring the keys of the `converters`
object (prototype-chain lookups such as `hasOwnProperty:` are outside the
modelled fragment). -/
def applyConverter (tag : String) (s : String) : Option (Except JErr JSValue) :=
  if tag = "auto" ∨ tag = "default" then some (converters.auto s)
  else if tag = "number" then some (converters.number s)
  else if tag = "epoch" then some (converters.epoch s)
  else if tag = "isodate" then some (converters.isodate s)
  else if tag = "date" then some (converters.date s)
  else if tag = "boolean" then some (converters.boolean s)
  else if tag = "string" then some (converters.string s)
  else if tag = "re" then some (converters.re s)
  else if tag = "RE" then some (converters.RE s)
  else if tag = "json" then some (converters.json s)
  else none

/-- stringToValue of parser.ts: tagged values dispatch to the named converter
(`RQLParseError` when unknown), untagged values use `auto`; in both cases a
first `\:` sequence is unescaped before converting. -/
def stringToValue (s : String) : Except JErr JSValue :=
  if hasTagForm s.data then
    let (tag, rest) := splitColon2 s.data
    match applyConverter tag (String.mk (replaceFirstEscColon rest.data)) with
    | some r => r
    | none => .error (.parseError ("Unknown converter: \"" ++ tag))
  else
    converters.auto (String.mk (replaceFirstEscColon s.data))

mutual

/-- Operator trees.  `node` is an `RQLQuery` class instance; `pobj` is a plain
operator-shaped object as produced by the parser before `RQLQuery.parseObject`
lifts it (the distinction matters because the validator counts RQL arguments
with an `instanceof` test); `value` is a decoded literal; `arr` a parenthesized
array argument (whose elements `parseObject` deliberately does not lift).
Argument sequences are the mutually defined list type `RArgs`, which keeps
every recursion over trees structural. -/
inductive RQLArg where
  | node (name : String) (args : RArgs)
  | pobj (name : String) (args : RArgs)
  | value (v : JSValue)
  | arr (elems : RArgs)

/-- Argument sequence of an operator call. -/
inductive RArgs where
  | nil
  | cons (head : RQLArg) (tail : RArgs)

end

def RArgs.ofList : List RQLArg → RArgs
  | [] => .nil
  | a :: r => .cons a (RArgs.ofList r)

def RArgs.length : RArgs → Nat
  | .nil => 0
  | .cons _ t => t.length + 1

/-- Indexing (`args[i]`); `none` is `undefined`. -/
def RArgs.get? : RArgs → Nat → Option RQLArg
  | .nil, _ => none
  | .cons a _, 0 => some a
  | .cons _ t, n + 1 => t.get? n

def RArgs.getD (l : RArgs) (i : Nat) (d : RQLArg) : RQLArg := (l.get? i).getD d

/-- Length of `args.filter(p)`. -/
def RArgs.countP (p : RQLArg → Bool) : RArgs → Nat
  | .nil => 0
  | .cons a t => (if p a then 1 else 0) + RArgs.countP p t

mutual

/-- Constructor count of a tree, used only to seed recursion fuel. -/
def argSize : RQLArg → Nat
  | .node _ as => asSize as + 1
  | .pobj _ as => asSize as + 1
  | .value _ => 1
  | .arr l => asSize l + 1

def asSize : RArgs → Nat
  | .nil => 1
  | .cons a t => argSize a + asSize t + 1

end

/-- Intermediate output of splitArguments: argument strings, possibly nested
for a leading parenthesized array. -/
inductive SplitArg where
  | str (s : String)
  | arr (elems : List SplitArg)

/-- Scanner state of `inside(str)` after the assumed opening paren: remaining
characters, open-paren count, delimiter flag, active quote; the accumulator is
kept reversed.  Throws the source's plain `Error` at end of input. -/
def insideAux : List Char → Nat → Bool → Option Char → List Char → Except JErr (List Char)
  | [], _, _, _, _ => .error (.jsError "Could not find closing paren")
  | c :: rest, untilCount, delimited, quoteType, acc =>
    if delimited then insideAux rest untilCount false quoteType (c :: acc)
    else if quoteType.isNone ∧ c = '\\' then insideAux rest untilCount true quoteType acc
    else if c = '\'' ∨ c = '"' then
      match quoteType with
      | none => insideAux rest untilCount false (some c) (c :: acc)
      | some q =>
        if q = c then insideAux rest untilCount false none (c :: acc)
        else insideAux rest untilCount false (some q) (c :: acc)
    else if quoteType.isSome then insideAux rest untilCount false quoteType (c :: acc)
    else if c = '(' then insideAux rest (untilCount + 1) false quoteType (c :: acc)
    else if c = ')' then
      if untilCount = 1 then .ok acc.reverse
      else insideAux rest (untilCount - 1) false quoteType (c :: acc)
    else insideAux rest untilCount false quoteType (c :: acc)

/-- inside(str): the substring strictly between the parens, quotes and
backslash escapes respected; the input starts at the opening paren. -/
def insideFn (l : List Char) : Except JErr (List Char) :=
  insideAux (l.drop 1) 1 false none []

/-- Length of the leftmost match of `/( *,)| *$/` — the jump the
splitArguments array branch adds after a nested array (note the source adds
only the match's length, not its position). -/
def findJump : List Char → Nat
  | [] => 0
  | l@(_ :: rest) =>
    let k := (l.takeWhile (· = ' ')).length
    if l.get? k = some ',' then k + 1
    else if l.all (· = ' ') then l.length
    else findJump rest

/-- The custom `trim`: standard trim, then strip one surrounding pair of
matching quotes when the regexes `/^'.*'$/` or `/^".*"$/` match (`.` does not
match line terminators, so a quoted span containing a newline is kept). -/
def trimArg (s : String) : String :=
  let t := jsTrimChars s.data
  if 2 ≤ t.length
      ∧ (t.head? = some '\'' ∧ t.getLast? = some '\'' ∨ t.head? = some '"' ∧ t.getLast? = some '"')
      ∧ ((t.drop 1).dropLast.all fun c => c ≠ '\n' ∧ c ≠ '\r') then
    String.mk ((t.drop 1).dropLast)
  else String.mk t

/-- Test of `/\w+\(/` (isRQLQuery of parser.ts): some word character directly
followed by an opening paren. -/
def isRQLQueryStr (s : String) : Bool := go s.data
where
  go : List Char → Bool
    | a :: b :: rest => (isWordChar a ∧ b = '(') ∨ go (b :: rest)
    | _ => false

/-- Build the plain operator object for the current scanner state. -/
def mkPobj (curr : String × List RQLArg) : RQLArg := .pobj curr.1 (.ofList curr.2)

/-- End-of-input flush of walkQuery: push the trailing partial node into the
aggregate when one was started, else return the partial node itself. -/
def flushAgg (curr : String × List RQLArg) : Option (String × List RQLArg) → RQLArg
  | some (n, as) => .pobj n (.ofList (as ++ [mkPobj curr]))
  | none => mkPobj curr

mutual

/-- walkQuery of parser.ts.  The scanner state is the current partial node
(name, args) and the aggregate top operator with its accumulated arguments
(`none` when no separator has been seen and no nested top was passed in).
Index jumps reuse the length of the processed `inside` output exactly as the
source does.  The `fuel` argument only forces termination; the entry points
seed it with more than the recursion can consume. -/
def walkAux : Nat → List Char → String × List RQLArg → Option (String × List RQLArg) → Except JErr RQLArg
  | 0, _, _, _ => .error .fuel
  | fuel + 1, l, curr, agg =>
    match l with
    | [] => .ok (flushAgg curr agg)
    | c :: rest =>
      if c = '&' ∨ c = ',' then
        match agg with
        | some (n, as) =>
          if n = "or" then
            match walkAux fuel rest ("", []) (some ("and", [mkPobj curr])) with
            | .ok r => .ok (.pobj n (.ofList (as ++ [r])))
            | .error e => .error e
          else walkAux fuel rest ("", []) (some (n, as ++ [mkPobj curr]))
        | none => walkAux fuel rest ("", []) (some ("and", [mkPobj curr]))
      else if c = '|' then
        match agg with
        | some (n, as) =>
          if n = "and" then
            match walkAux fuel rest ("", []) (some ("or", [])) with
            | .ok r => .ok (.pobj n (.ofList (as ++ [mkPobj curr, r])))
            | .error e => .error e
          else walkAux fuel rest ("", []) (some (n, as ++ [mkPobj curr]))
        | none => walkAux fuel rest ("", []) (some ("or", [mkPobj curr]))
      else if c = '(' then
        match insideFn l with
        | .error e => .error e
        | .ok ins =>
          match splitAux fuel ins [] "" false none with
          | .error e => .error e
          | .ok args0 =>
            match parseArgs fuel args0 with
            | .error e => .error e
            | .ok args => walkAux fuel (l.drop (ins.length + 2)) (curr.1, args) agg
      else walkAux fuel rest (curr.1.push c, curr.2) agg

/-- splitArguments of parser.ts: state is (remaining, accumulated args,
current argument, delimiter flag, active quote).  The array branch reproduces
the source's index arithmetic (including the regex jump computed from the
processed substring length) verbatim. -/
def splitAux : Nat → List Char → List SplitArg → String → Bool → Option Char → Except JErr (List SplitArg)
  | 0, _, _, _, _, _ => .error .fuel
  | fuel + 1, l, args, currentArg, delimited, quoteType =>
    match l with
    | [] => .ok (if 0 < (jsTrim currentArg).length then args ++ [.str (trimArg currentArg)] else args)
    | c :: rest =>
      if delimited then splitAux fuel rest args (currentArg.push c) false quoteType
      else if quoteType.isNone ∧ c = '\\' then splitAux fuel rest args currentArg true quoteType
      else if c = '\'' ∨ c = '"' then
        match quoteType with
        | none => splitAux fuel rest args currentArg false (some c)
        | some q =>
          if q = c then splitAux fuel rest args currentArg false none
          else splitAux fuel rest args (currentArg.push c) false quoteType
      else if quoteType.isSome then splitAux fuel rest args (currentArg.push c) false quoteType
      else if currentArg.length = 0 then
        if c = '(' then
          match insideFn l with
          | .error e => .error e
          | .ok arrStr =>
            match splitAux fuel arrStr [] "" false none with
            | .error e => .error e
            | .ok nested =>
              let j := findJump (l.drop (arrStr.length + 1))
              splitAux fuel (l.drop (arrStr.length + 1 + j + 1)) (args ++ [.arr nested]) "" false quoteType
        else if c = ' ' then splitAux fuel rest args currentArg false quoteType
        else splitAux fuel rest args (currentArg.push c) false quoteType
      else if c = ',' then splitAux fuel rest (args ++ [.str (trimArg currentArg)]) "" false quoteType
      else if c = '(' then
        match insideFn l with
        | .error e => .error e
        | .ok strInside =>
          splitAux fuel (l.drop (strInside.length + 1)) args ((currentArg.push c) ++ String.mk strInside) false quoteType
      else splitAux fuel rest args (currentArg.push c) false quoteType

/-- parseArg of parser.ts over the split output: call-shaped strings recurse
into walkQuery, plain strings decode via stringToValue, arrays map. -/
def parseArg : Nat → SplitArg → Except JErr RQLArg
  | 0, _ => .error .fuel
  | fuel + 1, .str s =>
    if isRQLQueryStr s then walkAux fuel s.data ("", []) none
    else (stringToValue s).map .value
  | fuel + 1, .arr l => (parseArgs fuel l).map fun rs => .arr (.ofList rs)

def parseArgs : Nat → List SplitArg → Except JErr (List RQLArg)
  | 0, _ => .error .fuel
  | _ + 1, [] => .ok []
  | fuel + 1, a :: rest =>
    match parseArg fuel a with
    | .error e => .error e
    | .ok r =>
      match parseArgs fuel rest with
      | .error e => .error e
      | .ok rs => .ok (r :: rs)

end

/-- Substring test used to detect the URL-escape pre-passes. -/
def containsSub (pat : List Char) : List Char → Bool
  | [] => pat.isPrefixOf []
  | c :: rest => pat.isPrefixOf (c :: rest) ∨ containsSub pat rest

/-- Whether normalizeSyntax is the identity on `s`: every alternative of the
shorthand-operator group of its rewriting regex contains one of `=`, `<`, `>`,
and the two URL-escape pre-passes fire only on the literal (case-sensitive)
substrings `%3C`/`%3E`; a query containing none of these is left unchanged.
Queries that would be rewritten are outside the modelled fragment. -/
def normalizeIsIdentity (s : String) : Bool :=
  ¬ (s.data.contains '<' ∨ s.data.contains '>' ∨ s.data.contains '='
      ∨ containsSub "%3C".data s.data ∨ containsSub "%3E".data s.data)

/-- Fuel seed: strictly more steps than the scan of `s` and all its nested
argument parses can take. -/
def parseFuel (s : String) : Nat := (s.length + 2) * (s.length + 2)

/-- parse of parser.ts: reject empty input and a leading `?`, normalize the
comparator shorthand (identity on the modelled fragment), then walk. -/
def parse (s : String) : Except JErr RQLArg :=
  if s = "" then .error (.parseError ("Query empty or invalid: " ++ s))
  else if s.data.head? = some '?' then .error (.parseError ("Query must not start with ?: " ++ s))
  else if normalizeIsIdentity s then walkAux (parseFuel s) s.data ("", []) none
  else .error (.notModelled "comparator shorthand normalization")

mutual

/-- RQLQuery.parseArg: plain objects satisfying isRQLOperator (truthy name,
array args) become RQLQuery instances recursively; arrays and other values
are kept as they are. -/
def liftArg : RQLArg → RQLArg
  | .pobj n as => if n = "" then .pobj n as else .node n (liftArgs as)
  | .node n as => .node n (liftArgs as)
  | .value v => .value v
  | .arr l => .arr l

def liftArgs : RArgs → RArgs
  | .nil => .nil
  | .cons a rest => .cons (liftArg a) (liftArgs rest)

end

/-- RQLQuery.parse: parse the text, then `RQLQuery.parseObject` on the root
(the root is lifted unconditionally; its arguments via `parseArg`). -/
def parseRQLQuery (s : String) : Except JErr RQLArg :=
  match parse s with
  | .error e => .error e
  | .ok (.pobj n as) | .ok (.node n as) => .ok (.node n (liftArgs as))
  | .ok other => .ok other

/-- The `instanceof RQLQuery` test used by the validator's argument filter. -/
def isNodeArg : RQLArg → Bool
  | .node _ _ => true
  | _ => false

/-- Whether `typeof arg === 'string'`. -/
def isStringArg : RQLArg → Bool
  | .value v => jsTypeofString v
  | _ => false

/-- Whether `typeof arg === 'number'`. -/
def isNumberArg : RQLArg → Bool
  | .value v => jsTypeofNumber v
  | _ => false

mutual

/-- validateRQL of validator.ts (the RQLQuery-based version shipped with and
required by index.ts, whose operator table also covers `select` and `before`;
an older revision kept alongside the sources lacks those two cases).  The
operator is selected on the lowercased name; on success the input itself is
returned.  Plain operator-shaped objects are handled like class instances
(the function only reads `name` and `args`), and their arguments still fail
the `instanceof`-based RQL-argument count for `and`/`or`. -/
def validateRQL (q : RQLArg) : Except JErr RQLArg :=
  match q with
  | .node name args | .pobj name args =>
    let rqlArgsLen := args.countP isNodeArg
    match jsToLower name with
    | "eq" | "ne" | "in" | "out" | "le" | "lt" | "gt" | "ge" =>
      if 0 < rqlArgsLen then
        .error (.validationError ("RQL is not allowed in arguments for operator: " ++ name))
      else .ok q
    | "and" | "or" =>
      if rqlArgsLen ≠ args.length then
        .error (.validationError ("RQL is required in arguments for operator: " ++ name))
      else
        match validateList args with
        | .error e => .error e
        | .ok _ => .ok q
    | "sort" | "select" =>
      if 0 < (args.countP fun a => ¬ isStringArg a) then
        .error (.validationError ("RQL Operator " ++ name ++ " requires string arguments"))
      else .ok q
    | "limit" =>
      if ¬ (args.get? 0).elim false isNumberArg then
        .error (.validationError ("RQL Operator " ++ name ++ " requires a number as the first argument"))
      else if 1 < args.length ∧ ¬ (args.get? 1).elim false isNumberArg then
        .error (.validationError ("RQL Operator " ++ name ++ " requires a number as the second argument"))
      else .ok q
    | "after" | "before" =>
      if ¬ (args.get? 0).elim false isStringArg then
        .error (.validationError ("RQL Operator " ++ name ++ " requires a string as the first argument"))
      else .ok q
    | _ => .error (.validationError ("RQL Operator is not allowed: " ++ name))
  | _ => .error (.typeError "rqlQuery.args is undefined")

def validateList : RArgs → Except JErr Unit
  | .nil => .ok ()
  | .cons a rest =>
    match validateRQL a with
    | .error e => .error e
    | .ok _ => validateList rest

end

/-- Values stored under a field of a criteria mapping: a scalar set by `eq`,
a tag mapping built by the range operators, the array under the or-tag
(with any properties later assigned onto it), or an object-typed scalar that
received assigned properties. -/
inductive MVal where
  | scalar (a : RQLArg)
  | tags (m : List (String × RQLArg))
  | orList (branches : List (List (String × MVal))) (props : List (String × RQLArg))
  | scalarProps (a : RQLArg) (m : List (String × RQLArg))

/-- A criteria mapping: field path to stored value, in insertion order. -/
abbrev Criteria := List (String × MVal)

/-- The MongoQuery record of interfaces/mongoQuery.ts.  `limit` and `skip` are
JavaScript numbers in the source; they are kept as `JSValue` here because the
compiler assigns whatever number value the limit arguments carry. -/
structure MongoQuery where
  after : String
  before : String
  skip : JSValue
  limit : JSValue
  criteria : Criteria
  sort : List (String × Int)
  projection : List (String × Nat)

/-- Assignment into a JavaScript object: an existing key keeps its position,
a new key is appended. -/
def assocSet {β : Type} (l : List (String × β)) (k : String) (v : β) : List (String × β) :=
  match l with
  | [] => [(k, v)]
  | (k0, v0) :: rest => if k0 = k then (k0, v) :: rest else (k0, v0) :: assocSet rest k v

/-- Property read from a JavaScript object (`none` is `undefined`). -/
def assocGet {β : Type} (l : List (String × β)) (k : String) : Option β :=
  (l.find? fun p => p.1 = k).map (·.2)

/-- JavaScript string conversion of a property key; field keys in this
pipeline are strings (or small integers); the remaining conversions are
outside the modelled fragment but total. -/
def jsValueToKey : JSValue → String
  | .str s => s
  | .num m e =>
    match numAsInt m e with
    | some n => toString n
    | none => "unmodelled-noninteger-key"
  | .inf => "Infinity"
  | .negInf => "-Infinity"
  | .bool b => if b then "true" else "false"
  | .null => "null"
  | .undef => "undefined"
  | .date _ => "unmodelled-date-key"
  | .regex _ _ => "unmodelled-regex-key"

def argToKey : RQLArg → String
  | .value v => jsValueToKey v
  | .node _ _ | .pobj _ _ => "unmodelled-object-key"
  | .arr _ => "unmodelled-array-key"

/-- Truthiness of an argument value: operator objects and arrays are truthy
objects; literals follow JavaScript falsiness. -/
def argFalsy : RQLArg → Bool
  | .value v => jsFalsy v
  | _ => false

/-- Whether `typeof arg === 'object'`: operator objects, arrays, and the
object-typed literals (`null`, dates, regular expressions). -/
def argTypeofObject : RQLArg → Bool
  | .value v => jsTypeofObject v
  | _ => true

def mvalFalsy : MVal → Bool
  | .scalar a => argFalsy a
  | _ => false

def mvalTypeofObject : MVal → Bool
  | .scalar a => argTypeofObject a
  | _ => true

/-- The OPERATOR_TO_CRITERIA table of index.ts. -/
def operatorToCriteria (op : String) : String :=
  if op = "or" then "$or"
  else if op = "ne" then "$ne"
  else if op = "in" then "$in"
  else if op = "out" then "$nin"
  else if op = "le" then "$lte"
  else if op = "lt" then "$lt"
  else if op = "gt" then "$gt"
  else if op = "ge" then "$gte"
  else "undefined"

/-- Distinct-value count in first-occurrence order (`[...new Set(values)]`). -/
def distinctCount (l : List Nat) : Nat :=
  (l.foldl (fun acc v => if acc.contains v then acc else acc ++ [v]) []).length

/-- RQLToMongo.isProjectionAllowed: a projection mixing inclusion and
exclusion flags is only legal when the sole exclusion is `_id`. -/
def isProjectionAllowed (mq : MongoQuery) : Except JErr Unit :=
  let existingNodes := mq.projection.map (·.1)
  let twoValues := distinctCount (mq.projection.map (·.2)) = 2
  if twoValues ∧ ¬ existingNodes.contains "_id" then
    .error (.validationError "can not send exclusion with inclusion except _id")
  else if twoValues then
    if mq.projection.any fun p => p.1 ≠ "_id" ∧ p.2 = 0 then
      .error (.validationError "can not send exclusion with inclusion except _id")
    else .ok ()
  else .ok ()

/-- Argument loop of RQLToMongo.handleProjection: leading `+` (or no sign)
includes, leading `-` excludes, the sign-stripped remainder is the field. -/
def projFold (mq : MongoQuery) : RArgs → Except JErr MongoQuery
  | .nil => .ok mq
  | .cons a rest =>
    match a with
    | .value (.str s) =>
      let plus := s.data.head? = some '+'
      let minus := s.data.head? = some '-'
      let inclusion : Nat := if plus then 1 else if minus then 0 else 1
      let field := if plus ∨ minus then String.mk (s.data.drop 1) else s
      projFold { mq with projection := assocSet mq.projection field inclusion } rest
    | _ => .error (.validationError "unexpected argument for select operator: expected string")

/-- RQLToMongo.handleProjection: record every select argument, then enforce
the projection exclusivity invariant. -/
def handleProjection (mq : MongoQuery) (args : RArgs) : Except JErr MongoQuery :=
  match projFold mq args with
  | .error e => .error e
  | .ok mq2 =>
    match isProjectionAllowed mq2 with
    | .error e => .error e
    | .ok _ => .ok mq2

/-- RQLToMongo.handleSort: same sign convention with directions 1 / -1. -/
def handleSort (mq : MongoQuery) : RArgs → Except JErr MongoQuery
  | .nil => .ok mq
  | .cons a rest =>
    match a with
    | .value (.str s) =>
      let plus := s.data.head? = some '+'
      let minus := s.data.head? = some '-'
      let dir : Int := if plus then 1 else if minus then -1 else 1
      let field := if plus ∨ minus then String.mk (s.data.drop 1) else s
      handleSort { mq with sort := assocSet mq.sort field dir } rest
    | _ => .error (.validationError "unexpected argument for sort operator: expected string")

/-- The number value carried by a limit argument (the typeof guard ensures
the argument is a number before this is read). -/
def limitArgValue (o : Option RQLArg) : JSValue :=
  match o with
  | none | some (.node _ _) | some (.pobj _ _) | some (.arr _) => .undef
  | some (.value v) => v

/-- RQLToMongo.handleLimit: the first argument (required, a number) sets
`limit`; the second, when present (and then also required to be a number),
sets `skip`. -/
def handleLimit (mq : MongoQuery) (args : RArgs) : Except JErr MongoQuery :=
  if ¬ (args.get? 0).elim false isNumberArg then
    .error (.validationError "unexpected argument 1 for limit operator: expected number")
  else if 1 < args.length ∧ ¬ (args.get? 1).elim false isNumberArg then
    .error (.validationError "unexpected argument 2 for limit operator: expected number")
  else
    let mq2 := { mq with limit := limitArgValue (args.get? 0) }
    if 1 < args.length then
      .ok { mq2 with skip := limitArgValue (args.get? 1) }
    else .ok mq2

/-- RQLToMongo.handleAfter. -/
def handleAfter (mq : MongoQuery) (args : RArgs) : Except JErr MongoQuery :=
  match args.get? 0 with
  | some (.value (.str s)) => .ok { mq with after := s }
  | _ => .error (.validationError "unexpected argument 1 for after operator: expected string")

/-- RQLToMongo.handleBefore. -/
def handleBefore (mq : MongoQuery) (args : RArgs) : Except JErr MongoQuery :=
  match args.get? 0 with
  | some (.value (.str s)) => .ok { mq with before := s }
  | _ => .error (.validationError "unexpected argument 1 for before operator: expected string")

/-- The shared merge step of the range and `in`/`out` cases: a missing or
falsy field value is replaced by a fresh mapping, a truthy non-object
conflicts with the earlier `eq`, and otherwise the tag is assigned onto the
existing object (`Object.assign`). -/
def mergeTag (mq : MongoQuery) (cc : Criteria) (name fieldArg : String) (v : RQLArg) :
    Except JErr (MongoQuery × Criteria) :=
  let tag := operatorToCriteria name
  match assocGet cc fieldArg with
  | none => .ok (mq, assocSet cc fieldArg (.tags [(tag, v)]))
  | some m =>
    if mvalFalsy m then .ok (mq, assocSet cc fieldArg (.tags [(tag, v)]))
    else if ¬ mvalTypeofObject m then
      .error (.validationError ("conflicting operators: eq and " ++ name ++ " for " ++ fieldArg))
    else
      let merged : MVal :=
        match m with
        | .tags t => .tags (assocSet t tag v)
        | .scalar a => .scalarProps a [(tag, v)]
        | .scalarProps a t => .scalarProps a (assocSet t tag v)
        | .orList l p => .orList l (assocSet p tag v)
      .ok (mq, assocSet cc fieldArg merged)

/-- The or-tag initialization step of RQLToMongo.handleSubCriteria: when the
or-tag field is absent or falsy, install a fresh empty array on the current
criteria before the argument loop runs. -/
def orInit (cc : Criteria) (name : String) : Criteria :=
  let orAbsent : Bool := match assocGet cc "$or" with | none => true | some m => mvalFalsy m
  if name = "or" ∧ orAbsent then assocSet cc "$or" (.orList [] []) else cc

/-- The final step of RQLToMongo.handleSubCriteria for `or`: concatenate the
collected branch mappings onto the array under the or-tag.  A non-array value
under the or-tag would make the source call `concat` on it — a `TypeError` for
the object shapes reachable here (and a string/array coercion outside the
modelled fragment otherwise). -/
def orFinish (name : String) (mq2 : MongoQuery) (cc2 : Criteria) (orCrit : List Criteria) :
    Except JErr (MongoQuery × Criteria) :=
  if name = "or" then
    match assocGet cc2 "$or" with
    | some (.orList l p) => .ok (mq2, assocSet cc2 "$or" (.orList (l ++ orCrit) p))
    | _ => .error (.typeError "currentCriteria[$or].concat is not a function")
  else .ok (mq2, cc2)

mutual

/-- RQLToMongo.parseRQLObj: dispatch on the (case-sensitive) operator name of
the query object, threading the MongoQuery under construction and the current
criteria mapping.  `eq` conflicts when the field already holds an object-typed
value; the range operators and `in`/`out` create or merge a tag mapping,
conflicting when the field holds a truthy non-object (an earlier `eq`);
`in`/`out` wrap a non-array value in a singleton array.  An unrecognized name
(in particular any non-lowercase spelling accepted by the case-insensitive
validator) reaches the default branch and throws the `unreachable` internal
error.  The fuel argument only forces structural termination of the mutual
recursion; the entry points seed it with more than the deepest call chain can
consume. -/
def parseRQLObjAux : Nat → MongoQuery → Criteria → RQLArg → Except JErr (MongoQuery × Criteria)
  | 0, _, _, _ => .error .fuel
  | fuel + 1, mq, cc, q =>
    match q with
    | .node name args | .pobj name args =>
      let fieldArg : String := match args.get? 0 with | some a => argToKey a | none => "undefined"
      if name = "or" ∨ name = "and" then handleSubCriteriaAux fuel mq cc q
      else if name = "eq" then
        if (assocGet cc fieldArg).elim false mvalTypeofObject then
          .error (.validationError ("conflicting operators: eq for " ++ fieldArg))
        else .ok (mq, assocSet cc fieldArg (.scalar (args.getD 1 (.value .undef))))
      else if name = "ne" ∨ name = "le" ∨ name = "lt" ∨ name = "gt" ∨ name = "ge" then
        mergeTag mq cc name fieldArg (args.getD 1 (.value .undef))
      else if name = "in" ∨ name = "out" then
        let v := args.getD 1 (.value .undef)
        let v2 : RQLArg := match v with | .arr l => .arr l | a => .arr (.cons a .nil)
        mergeTag mq cc name fieldArg v2
      else if name = "select" then (handleProjection mq args).map (·, cc)
      else if name = "sort" then (handleSort mq args).map (·, cc)
      else if name = "limit" then (handleLimit mq args).map (·, cc)
      else if name = "after" then (handleAfter mq args).map (·, cc)
      else if name = "before" then (handleBefore mq args).map (·, cc)
      else .error (.validationError ("unreachable. unknown operator " ++ name))
    | _ => .error (.validationError "unreachable. unknown operator undefined")

/-- RQLToMongo.handleSubCriteria: the or-tag initialization, the argument
loop, and for `or` the final concatenation of the collected branch mappings
onto the array under the or-tag. -/
def handleSubCriteriaAux : Nat → MongoQuery → Criteria → RQLArg → Except JErr (MongoQuery × Criteria)
  | 0, _, _, _ => .error .fuel
  | fuel + 1, mq, cc, q =>
    match q with
    | .node name args | .pobj name args =>
      match subFoldAux fuel mq (orInit cc name) name args [] with
      | .error e => .error e
      | .ok (mq2, cc2, orCrit) => orFinish name mq2 cc2 orCrit
    | _ => .error (.typeError "rqlQuery.args is undefined")

/-- Argument loop of RQLToMongo.handleSubCriteria: each argument must be
operator-shaped (truthy `name` and an `args` array); `or` arguments compile
into a fresh empty mapping collected into the branch list, `and` arguments
thread the current mapping. -/
def subFoldAux : Nat → MongoQuery → Criteria → String → RArgs → List Criteria →
    Except JErr (MongoQuery × Criteria × List Criteria)
  | 0, _, _, _, _, _ => .error .fuel
  | fuel + 1, mq, cc, name, args, orAcc =>
    match args with
    | .nil => .ok (mq, cc, orAcc)
    | .cons a rest =>
      match a with
      | .node n _ | .pobj n _ =>
        if n = "" then
          .error (.validationError ("expected RQL as the argument for \"" ++ name ++ "\" operator"))
        else if name = "or" then
          match parseRQLObjAux fuel mq [] a with
          | .error e => .error e
          | .ok (mq2, ccBranch) => subFoldAux fuel mq2 cc name rest (orAcc ++ [ccBranch])
        else
          match parseRQLObjAux fuel mq cc a with
          | .error e => .error e
          | .ok (mq2, cc2) => subFoldAux fuel mq2 cc2 name rest orAcc
      | _ => .error (.validationError ("expected RQL as the argument for \"" ++ name ++ "\" operator"))

end

/-- Fuel bound for the compiler walk: the deepest call chain costs three fuel
units per tree level plus one per argument position, all covered by four
units per constructor. -/
def compileFuel (q : RQLArg) : Nat := 4 * argSize q + 4

/-- RQLToMongo.parseRQLObj with its fuel seeded sufficiently for any input. -/
def parseRQLObj (mq : MongoQuery) (cc : Criteria) (q : RQLArg) :
    Except JErr (MongoQuery × Criteria) :=
  parseRQLObjAux (compileFuel q) mq cc q

/-- RQLToMongo.handleSubCriteria with its fuel seeded sufficiently. -/
def handleSubCriteria (mq : MongoQuery) (cc : Criteria) (q : RQLArg) :
    Except JErr (MongoQuery × Criteria) :=
  handleSubCriteriaAux (compileFuel q) mq cc q

/-- RQLToMongo.getDefaultMongoQuery. -/
def getDefaultMongoQuery : MongoQuery :=
  { after := "", before := "", skip := .num 0 0, limit := .num 0 0,
    criteria := [], sort := [], projection := [] }

/-- RQLToMongo.convertRQLQuery: validate, then compile into a fresh default
MongoQuery whose criteria is the current mapping of the root call. -/
def convertRQLQuery (q : RQLArg) : Except JErr MongoQuery :=
  match validateRQL q with
  | .error e => .error e
  | .ok _ =>
    match parseRQLObj getDefaultMongoQuery getDefaultMongoQuery.criteria q with
    | .error e => .error e
    | .ok (mq, cc) => .ok { mq with criteria := cc }

/-- RQLToMongo.convertRQLString: parse, validate, convert (convertRQLQuery
validates once more internally, as in the source). -/
def convertRQLString (s : String) : Except JErr MongoQuery :=
  match parseRQLQuery s with
  | .error e => .error e
  | .ok q =>
    match validateRQL q with
    | .error e => .error e
    | .ok q2 => convertRQLQuery q2

/-- The single-quote test of the auto fallback, as a predicate on the raw
string: the URL-decoded value starts with a single quote and the raw length
index into the decoded value is a closing single quote. -/
def autoQuoteFallback (s : String) : Bool :=
  match decodeURIComponentModel s with
  | none => false
  | some d => d.data.get? 0 = some '\'' ∧ d.data.get? (s.length - 1) = some '\''

/-- The double-quote wrapping the auto fallback hands to `JSON.parse`. -/
def autoQuoteWrap (s : String) : String :=
  "\"" ++ substringJS s 1 (s.length - 1) ++ "\""


/-- Both paging fields of a MongoQuery are JavaScript numbers. -/
def mqNumeric (mq : MongoQuery) : Bool :=
  jsTypeofNumber mq.limit && jsTypeofNumber mq.skip

/-- C8: for the input string `eq(foo,3)`, the full pipeline (parse, validate,
compile) returns a descriptor whose criteria maps `foo` to the number 3 and in
which every other field keeps its default value: `limit = 0`, `skip = 0`,
empty sort mapping, empty projection mapping, and empty after/before cursor
strings. -/
theorem c8_eq_pipeline_defaults :
    convertRQLString "eq(foo,3)" =
      .ok { after := "", before := "", skip := .num 0 0, limit := .num 0 0,
            criteria := [("foo", .scalar (.value (.num 3 0)))],
            sort := [], projection := [] } := by
  rfl

/-- C3: `compile(parse("select(+name,-_id)"))` succeeds and produces the
projection mapping name to 1 and the identifier field to 0, while
`compile(parse("select(+name,-type)"))` raises a ValidationError: exclusion
mixed with inclusion is only allowed for the `_id` field.  (Validation accepts
the select node — its arguments are all strings — and compilation applies the
sign convention to the projection mapping.) -/
theorem c3_select_projection :
    convertRQLString "select(+name,-_id)" =
      .ok { after := "", before := "", skip := .num 0 0, limit := .num 0 0,
            criteria := [], sort := [], projection := [("name", 1), ("_id", 0)] }
    ∧ convertRQLString "select(+name,-type)" =
      .error (.validationError "can not send exclusion with inclusion except _id") := by
  exact ⟨rfl, rfl⟩

/-- C10: an `or` node with zero arguments passes validation and compiles
without error to a descriptor whose criteria carries an empty array under the
or-tag: the empty disjunction is installed even though no branch contributes.
The same holds end to end for the query string `or()`. -/
theorem c10_empty_or :
    validateRQL (.node "or" .nil) = .ok (.node "or" .nil)
    ∧ convertRQLQuery (.node "or" .nil) =
      .ok { after := "", before := "", skip := .num 0 0, limit := .num 0 0,
            criteria := [("$or", .orList [] [])], sort := [], projection := [] }
    ∧ convertRQLString "or()" =
      .ok { after := "", before := "", skip := .num 0 0, limit := .num 0 0,
            criteria := [("$or", .orList [] [])], sort := [], projection := [] } := by
  exact ⟨rfl, rfl, rfl⟩

/-- C4: the compiler's default branch is reachable for validated input, so the
claim that it is unreachable after validation is contradicted by the code's
own error message.  The validator lowercases the operator name before its
table lookup and therefore accepts `EQ`, but `parseRQLObj` dispatches on the
name case-sensitively and throws the `unreachable` internal error for the very
tree the validator returned — both at the tree level and end to end for the
query string `EQ(foo,1)`. -/
theorem c4_unknown_operator_code_bug :
    validateRQL (.node "EQ" .nil) = .ok (.node "EQ" .nil)
    ∧ convertRQLQuery (.node "EQ" .nil) =
      .error (.validationError "unreachable. unknown operator EQ")
    ∧ convertRQLString "EQ(foo,1)" =
      .error (.validationError "unreachable. unknown operator EQ") := by
  exact ⟨rfl, rfl, rfl⟩

/-- C7: compiling an `or` node allocates a fresh empty mapping per argument,
compiles each argument into it, and appends the resulting mappings to the
array under the or-tag of the current criteria mapping:
`compile(parse("or(gt(x,1),lt(x,5))"))` yields exactly the claimed
two-branch disjunction.  When several `or` nodes occur at the same level
(`or(gt(x,1)),or(lt(x,5))` puts two `or` nodes under one `and`), their branch
mappings accumulate into the same array rather than replacing it. -/
theorem c7_or_compilation :
    convertRQLString "or(gt(x,1),lt(x,5))" =
      .ok { after := "", before := "", skip := .num 0 0, limit := .num 0 0,
            criteria := [("$or", .orList
              [[("x", .tags [("$gt", .value (.num 1 0))])],
               [("x", .tags [("$lt", .value (.num 5 0))])]] [])],
            sort := [], projection := [] }
    ∧ convertRQLString "or(gt(x,1)),or(lt(x,5))" =
      .ok { after := "", before := "", skip := .num 0 0, limit := .num 0 0,
            criteria := [("$or", .orList
              [[("x", .tags [("$gt", .value (.num 1 0))])],
               [("x", .tags [("$lt", .value (.num 5 0))])]] [])],
            sort := [], projection := [] } := by
  exact ⟨rfl, rfl⟩

/-- C1, counterexample: the claim demands a ConflictError whenever the same
field receives an `eq` and a range constraint at the same and-level, but a
falsy `eq` value is silently discarded instead: `eq(foo,0),ne(foo,2)`
compiles without error, the `eq` constraint replaced by the range mapping
(the conflict check reads `!currentCriteria[field]`, and the stored `0` is
falsy). -/
theorem c1_eq_range_conflict_counterexample :
    convertRQLString "eq(foo,0),ne(foo,2)" =
      .ok { after := "", before := "", skip := .num 0 0, limit := .num 0 0,
            criteria := [("foo", .tags [("$ne", .value (.num 2 0))])],
            sort := [], projection := [] } := by
  rfl

/-- C6, counterexample: the claim states every compiled descriptor has
non-negative `limit` and `skip`, but validation only checks that the limit
arguments are numbers: `limit(-5,-3)` passes validation and compiles to a
descriptor with negative limit and skip. -/
theorem c6_limit_skip_counterexample :
    convertRQLString "limit(-5,-3)" =
      .ok { after := "", before := "", skip := .num (-3) 0, limit := .num (-5) 0,
            criteria := [], sort := [], projection := [] }
    ∧ (-5 : Int) < 0 := by
  exact ⟨rfl, by decide⟩

/-- C5, counterexample: the auto conversion rule is not total.  For the raw
three-character string `'"'` the literal and numeric rules do not apply, the
URL-decoded value is wrapped in single quotes, and the re-decode of its
interior as a JSON string literal fails — `converters.auto` raises instead of
falling back to a string. -/
theorem c5_auto_total_counterexample :
    converters.auto "'\"'" = .error (.conversionError "Unexpected token in JSON") := by
  rfl

/-- C2, counterexample: for the top-level input `eq(a,1),eq(b,2)|eq(c,3)`
(explicit AND then explicit OR, no parentheses) the parser does not return an
or node of the form `or(and(A,B),C)`; it returns the accumulated and node with
the nested or appended as a further argument, `and(A,B,or(C))`. -/
theorem c2_and_or_precedence_counterexample :
    parse "eq(a,1),eq(b,2)|eq(c,3)" =
      .ok (.pobj "and" (.ofList
        [.pobj "eq" (.ofList [.value (.str "a"), .value (.num 1 0)]),
         .pobj "eq" (.ofList [.value (.str "b"), .value (.num 2 0)]),
         .pobj "or" (.ofList [.pobj "eq" (.ofList [.value (.str "c"), .value (.num 3 0)])])]))
    ∧ (RQLArg.pobj "and" (.ofList
        [.pobj "eq" (.ofList [.value (.str "a"), .value (.num 1 0)]),
         .pobj "eq" (.ofList [.value (.str "b"), .value (.num 2 0)]),
         .pobj "or" (.ofList [.pobj "eq" (.ofList [.value (.str "c"), .value (.num 3 0)])])]))
      ≠ .pobj "or" (.ofList
        [.pobj "and" (.ofList
          [.pobj "eq" (.ofList [.value (.str "a"), .value (.num 1 0)]),
           .pobj "eq" (.ofList [.value (.str "b"), .value (.num 2 0)])]),
         .pobj "eq" (.ofList [.value (.str "c"), .value (.num 3 0)])]) := by
  refine ⟨rfl, ?_⟩
  intro h
  injection h with h1 h2
  exact absurd h1 (by decide)

/-- C2, amended: when the scanner has an `and` aggregate open and meets `|`,
it does not return an or node over the accumulated and; it pushes the current
partial node into the and node's arguments, recursively parses the remainder
under a fresh nested `or` aggregate, and appends that or node as one more
argument of the same and node — so `A,B|C` groups as `and(A,B,or(C))`, as the
concrete parse in the second conjunct shows. -/
theorem c2_and_or_precedence_amended :
    (∀ (fuel : Nat) (rest : List Char) (curr : String × List RQLArg) (acc : List RQLArg),
      walkAux (fuel + 1) ('|' :: rest) curr (some ("and", acc)) =
        match walkAux fuel rest ("", []) (some ("or", [])) with
        | .ok r => .ok (.pobj "and" (.ofList (acc ++ [mkPobj curr, r])))
        | .error e => .error e)
    ∧ parse "eq(a,1),eq(b,2)|eq(c,3)" =
      .ok (.pobj "and" (.ofList
        [.pobj "eq" (.ofList [.value (.str "a"), .value (.num 1 0)]),
         .pobj "eq" (.ofList [.value (.str "b"), .value (.num 2 0)]),
         .pobj "or" (.ofList [.pobj "eq" (.ofList [.value (.str "c"), .value (.num 3 0)])])])) := by
  refine ⟨?_, rfl⟩
  intro fuel rest curr acc
  simp only [walkAux]
  norm_num
  rintro (h | h) <;> exact absurd h (by decide)

/-- C5, amended: the auto conversion rule never raises from its literal or
numeric steps — a numeric failure is always caught and falls back to string
decoding.  It can only raise from the fallback itself: either URL-decoding
fails (URIError), or the decoded value is single-quote wrapped and the
re-decode of the raw interior as a JSON string literal fails. -/
theorem c5_auto_total_amended (s : String) (e : JErr)
    (h : converters.auto s = .error e) :
    (decodeURIComponentModel s = none ∧ e = .uriError)
    ∨ (autoQuoteFallback s = true ∧ converters.json (autoQuoteWrap s) = .error e) := by
  unfold converters.auto at h
  split at h
  · exact absurd h (by simp)
  · split at h
    · exact absurd h (by simp)
    · split at h
      · left
        rename_i hdec
        refine ⟨hdec, ?_⟩
        injection h with h2
        exact h2.symm
      · rename_i strVal hdec
        split at h
        · right
          rename_i hquote
          refine ⟨?_, h⟩
          simp only [autoQuoteFallback, hdec]
          exact decide_eq_true hquote
        · exact absurd h (by simp)

/-- C5, witness: the amended theorem applied at the concrete input `%`, where
URL-decoding fails. -/
theorem c5_auto_total_witness :
    (decodeURIComponentModel "%" = none ∧ JErr.uriError = .uriError)
    ∨ (autoQuoteFallback "%" = true ∧ converters.json (autoQuoteWrap "%") = .error .uriError) :=
  c5_auto_total_amended "%" .uriError rfl

/-- C9: validation is idempotent and side-effect free on success — whenever
validateRQL accepts a tree it returns that very tree (every success branch
returns its input), so validating the result again succeeds with the same
tree, and validation of a valid tree never throws. -/
theorem c9_validate_idempotent (q r : RQLArg) (h : validateRQL q = .ok r) :
    r = q ∧ validateRQL r = .ok r := by
  have hrq : r = q := by
    rcases q with ⟨name, args⟩ | ⟨name, args⟩ | v | l
    case value => exact absurd h (by simp [validateRQL])
    case arr => exact absurd h (by simp [validateRQL])
    all_goals
      simp only [validateRQL] at h
      repeat' split at h
      all_goals
        first
        | (injection h with h1; exact h1.symm)
        | exact absurd h (by simp)
  refine ⟨hrq, ?_⟩
  rw [hrq] at h ⊢
  exact h

/-- C9, witness: the idempotence theorem applied at a concrete validated
tree. -/
theorem c9_validate_idempotent_witness :
    RQLArg.node "eq" (.ofList [.value (.str "foo"), .value (.num 3 0)])
      = RQLArg.node "eq" (.ofList [.value (.str "foo"), .value (.num 3 0)])
    ∧ validateRQL (RQLArg.node "eq" (.ofList [.value (.str "foo"), .value (.num 3 0)]))
      = .ok (RQLArg.node "eq" (.ofList [.value (.str "foo"), .value (.num 3 0)])) :=
  c9_validate_idempotent _ _ rfl

/-- Unfolding lemma for property reads of a one-step-extended object. -/
theorem assocGet_cons {β : Type} (k0 k : String) (v : β) (l : List (String × β)) :
    assocGet ((k0, v) :: l) k = if k0 = k then some v else assocGet l k := by
  simp only [assocGet, List.find?]
  by_cases h : k0 = k
  · simp [h]
  · simp [h]

/-- Error propagation through convertRQLQuery: a validated tree whose
compilation throws makes the conversion throw the same error. -/
theorem convertRQLQuery_error_of (q : RQLArg) (e : JErr) (hv : validateRQL q = .ok q)
    (hc : parseRQLObj getDefaultMongoQuery [] q = .error e) :
    convertRQLQuery q = .error e := by
  simp only [convertRQLQuery, hv, show getDefaultMongoQuery.criteria = [] from rfl, hc]

/-- C1, amended: compiling a validated tree in which a field receives both an
`eq` constraint and a range/`in`/`out` constraint at the same and-level raises
the conflict error naming the field, in either order — provided that when the
`eq` comes first its stored value is truthy and not object-typed (a falsy
`eq` value is silently replaced instead, as the counterexample shows; an
object-typed one is merged into).  The range-then-`eq` order needs no side
condition, the range mapping being always a truthy object. -/
theorem c1_eq_range_conflict_amended (f op : String) (v w : JSValue)
    (hop : op ∈ ["ne", "le", "lt", "gt", "ge", "in", "out"])
    (hv : jsTruthy v = true) (hvo : jsTypeofObject v = false) :
    convertRQLQuery (.node "and" (.ofList
        [.node "eq" (.ofList [.value (.str f), .value v]),
         .node op (.ofList [.value (.str f), .value w])]))
      = .error (.validationError ("conflicting operators: eq and " ++ op ++ " for " ++ f))
    ∧ convertRQLQuery (.node "and" (.ofList
        [.node op (.ofList [.value (.str f), .value w]),
         .node "eq" (.ofList [.value (.str f), .value v])]))
      = .error (.validationError ("conflicting operators: eq for " ++ f)) := by
  have hfalsy : jsFalsy v = false := by
    revert hv; unfold jsTruthy; cases jsFalsy v <;> simp
  fin_cases hop <;>
  refine ⟨convertRQLQuery_error_of _ _ rfl ?_, convertRQLQuery_error_of _ _ rfl ?_⟩ <;>
  · show parseRQLObjAux (61 + 7) _ _ _ = _
    simp only [RArgs.ofList, parseRQLObjAux, handleSubCriteriaAux, subFoldAux, orInit, orFinish,
      mergeTag, assocGet, assocGet_cons, List.find?, assocSet, argToKey, jsValueToKey,
      operatorToCriteria, mvalFalsy, argFalsy, mvalTypeofObject, argTypeofObject,
      RArgs.get?, RArgs.getD, hfalsy, hvo]
    simp [hfalsy, hvo, mvalTypeofObject, argTypeofObject, mvalFalsy, argFalsy]

/-- C1, witness: the amended conflict theorem applied at field `foo`, range
operator `ne`, eq value 1 (truthy, not object-typed) and range value 2 — the
claim's own example pair `eq(foo,1)`, `ne(foo,2)`. -/
theorem c1_eq_range_conflict_witness :
    ("ne" ∈ (["ne", "le", "lt", "gt", "ge", "in", "out"] : List String)
      ∧ jsTruthy (.num 1 0) = true ∧ jsTypeofObject (.num 1 0) = false)
    ∧ (convertRQLQuery (.node "and" (.ofList
        [.node "eq" (.ofList [.value (.str "foo"), .value (.num 1 0)]),
         .node "ne" (.ofList [.value (.str "foo"), .value (.num 2 0)])]))
      = .error (.validationError ("conflicting operators: eq and " ++ "ne" ++ " for " ++ "foo"))
    ∧ convertRQLQuery (.node "and" (.ofList
        [.node "ne" (.ofList [.value (.str "foo"), .value (.num 2 0)]),
         .node "eq" (.ofList [.value (.str "foo"), .value (.num 1 0)])]))
      = .error (.validationError ("conflicting operators: eq for " ++ "foo"))) :=
  ⟨⟨by simp, rfl, rfl⟩,
    c1_eq_range_conflict_amended "foo" "ne" (.num 1 0) (.num 2 0) (by simp) rfl rfl⟩

/-- Induction principle for argument lists alone (the mutual eliminator of
the `RQLArg`/`RArgs` pair specialised with a trivial motive on arguments). -/
@[elab_as_elim] theorem rargsInd {motive : RArgs → Prop} (nil : motive .nil)
    (cons : ∀ a as, motive as → motive (.cons a as)) : ∀ as, motive as :=
  RArgs.rec (motive_1 := fun _ => True) (motive_2 := motive)
    (fun _ _ _ => trivial) (fun _ _ _ => trivial) (fun _ => trivial) (fun _ _ => trivial)
    nil (fun a as _ h => cons a as h)

theorem projFold_fields (args : RArgs) : ∀ mq mq2, projFold mq args = .ok mq2 →
    mq2.limit = mq.limit ∧ mq2.skip = mq.skip := by
  induction args using rargsInd with
  | nil => intro mq mq2 h; injection h with h1; rw [h1]; exact ⟨rfl, rfl⟩
  | cons a as ih =>
    intro mq mq2 h
    unfold projFold at h
    split at h
    · dsimp only at h
      have h2 := ih _ _ h
      exact h2
    · exact absurd h (by simp)

theorem handleProjection_fields (mq : MongoQuery) (args : RArgs) (mq2 : MongoQuery)
    (h : handleProjection mq args = .ok mq2) :
    mq2.limit = mq.limit ∧ mq2.skip = mq.skip := by
  unfold handleProjection at h
  split at h
  · exact absurd h (by simp)
  · rename_i mq3 hp
    split at h
    · exact absurd h (by simp)
    · injection h with h1; rw [h1] at hp; exact projFold_fields args mq mq2 hp

theorem handleSort_fields (args : RArgs) : ∀ mq mq2, handleSort mq args = .ok mq2 →
    mq2.limit = mq.limit ∧ mq2.skip = mq.skip := by
  induction args using rargsInd with
  | nil => intro mq mq2 h; injection h with h1; rw [h1]; exact ⟨rfl, rfl⟩
  | cons a as ih =>
    intro mq mq2 h
    unfold handleSort at h
    split at h
    · dsimp only at h
      have h2 := ih _ _ h
      exact h2
    · exact absurd h (by simp)

theorem limitArgValue_numeric (o : Option RQLArg) (h : o.elim false isNumberArg = true) :
    jsTypeofNumber (limitArgValue o) = true := by
  cases o with
  | none => simp at h
  | some a =>
    cases a with
    | value v => simpa [isNumberArg, limitArgValue] using h
    | node n as => simp [isNumberArg] at h
    | pobj n as => simp [isNumberArg] at h
    | arr l => simp [isNumberArg] at h

theorem handleLimit_numeric (mq : MongoQuery) (args : RArgs) (mq2 : MongoQuery)
    (hn : mqNumeric mq = true) (h : handleLimit mq args = .ok mq2) :
    mqNumeric mq2 = true := by
  unfold handleLimit at h
  split at h
  · exact absurd h (by simp)
  rename_i h1
  rw [not_not] at h1
  split at h
  · exact absurd h (by simp)
  rename_i h2
  split at h <;> injection h with hmq <;> rw [← hmq] <;> simp only [mqNumeric, Bool.and_eq_true]
  · rename_i hlen
    have h2b : (args.get? 1).elim false isNumberArg = true := by
      rcases not_and_or.mp h2 with hc | hc
      · exact absurd hlen hc
      · exact not_not.mp hc
    exact ⟨limitArgValue_numeric _ h1, limitArgValue_numeric _ h2b⟩
  · exact ⟨limitArgValue_numeric _ h1, (Bool.and_eq_true .. ▸ hn).2⟩

theorem mergeTag_ok_mq (mq : MongoQuery) (cc : Criteria) (name fieldArg : String) (v : RQLArg)
    (r : MongoQuery × Criteria) (h : mergeTag mq cc name fieldArg v = .ok r) : r.1 = mq := by
  unfold mergeTag at h
  repeat' split at h
  all_goals first
    | (injection h with h1; exact congrArg Prod.fst h1.symm)
    | exact absurd h (by simp)

theorem orFinish_ok_mq (name : String) (mq2 : MongoQuery) (cc2 : Criteria)
    (orCrit : List Criteria) (r : MongoQuery × Criteria)
    (h : orFinish name mq2 cc2 orCrit = .ok r) : r.1 = mq2 := by
  unfold orFinish at h
  repeat' split at h
  all_goals first
    | (injection h with h1; exact congrArg Prod.fst h1.symm)
    | exact absurd h (by simp)

theorem handleAfter_fields (mq : MongoQuery) (args : RArgs) (mq2 : MongoQuery)
    (h : handleAfter mq args = .ok mq2) : mq2.limit = mq.limit ∧ mq2.skip = mq.skip := by
  unfold handleAfter at h
  split at h
  · injection h with h1; rw [← h1]; exact ⟨rfl, rfl⟩
  · exact absurd h (by simp)

theorem handleBefore_fields (mq : MongoQuery) (args : RArgs) (mq2 : MongoQuery)
    (h : handleBefore mq args = .ok mq2) : mq2.limit = mq.limit ∧ mq2.skip = mq.skip := by
  unfold handleBefore at h
  split at h
  · injection h with h1; rw [← h1]; exact ⟨rfl, rfl⟩
  · exact absurd h (by simp)

theorem handleProjection_numeric (mq : MongoQuery) (args : RArgs) (mq2 : MongoQuery)
    (hn : mqNumeric mq = true) (h : handleProjection mq args = .ok mq2) :
    mqNumeric mq2 = true := by
  obtain ⟨hl, hs⟩ := handleProjection_fields mq args mq2 h
  simp only [mqNumeric] at hn ⊢
  rw [hl, hs]; exact hn

theorem handleSort_numeric (mq : MongoQuery) (args : RArgs) (mq2 : MongoQuery)
    (hn : mqNumeric mq = true) (h : handleSort mq args = .ok mq2) :
    mqNumeric mq2 = true := by
  obtain ⟨hl, hs⟩ := handleSort_fields args mq mq2 h
  simp only [mqNumeric] at hn ⊢
  rw [hl, hs]; exact hn

theorem handleAfter_numeric (mq : MongoQuery) (args : RArgs) (mq2 : MongoQuery)
    (hn : mqNumeric mq = true) (h : handleAfter mq args = .ok mq2) :
    mqNumeric mq2 = true := by
  obtain ⟨hl, hs⟩ := handleAfter_fields mq args mq2 h
  simp only [mqNumeric] at hn ⊢
  rw [hl, hs]; exact hn

theorem handleBefore_numeric (mq : MongoQuery) (args : RArgs) (mq2 : MongoQuery)
    (hn : mqNumeric mq = true) (h : handleBefore mq args = .ok mq2) :
    mqNumeric mq2 = true := by
  obtain ⟨hl, hs⟩ := handleBefore_fields mq args mq2 h
  simp only [mqNumeric] at hn ⊢
  rw [hl, hs]; exact hn

theorem exceptMap_pair_ok (x : Except JErr MongoQuery) (cc : Criteria)
    (r : MongoQuery × Criteria) (h : x.map (·, cc) = .ok r) : x = .ok r.1 := by
  cases x with
  | error e => simp [Except.map] at h
  | ok mq2 => simp only [Except.map] at h; injection h with h1; rw [← h1]

theorem compileNumeric : ∀ fuel : Nat,
    (∀ mq cc q r, mqNumeric mq = true → parseRQLObjAux fuel mq cc q = .ok r →
       mqNumeric r.1 = true)
    ∧ (∀ mq cc q r, mqNumeric mq = true → handleSubCriteriaAux fuel mq cc q = .ok r →
       mqNumeric r.1 = true)
    ∧ (∀ mq cc name args orAcc r, mqNumeric mq = true →
       subFoldAux fuel mq cc name args orAcc = .ok r → mqNumeric r.1 = true) := by
  intro fuel
  induction fuel with
  | zero =>
    refine ⟨fun mq cc q r hn h => ?_, fun mq cc q r hn h => ?_,
      fun mq cc name args orAcc r hn h => ?_⟩
    · exact absurd h (by simp [parseRQLObjAux])
    · exact absurd h (by simp [handleSubCriteriaAux])
    · exact absurd h (by simp [subFoldAux])
  | succ fuel ih =>
    obtain ⟨ih1, ih2, ih3⟩ := ih
    refine ⟨fun mq cc q r hn h => ?_, fun mq cc q r hn h => ?_,
      fun mq cc name args orAcc r hn h => ?_⟩
    · simp only [parseRQLObjAux] at h
      repeat' split at h
      all_goals first
        | exact Except.noConfusion h
        | exact ih2 _ _ _ _ hn h
        | (injection h with h1; rw [← h1]; exact hn)
        | (rw [mergeTag_ok_mq _ _ _ _ _ _ h]; exact hn)
        | exact handleProjection_numeric _ _ _ hn (exceptMap_pair_ok _ _ _ h)
        | exact handleSort_numeric _ _ _ hn (exceptMap_pair_ok _ _ _ h)
        | exact handleLimit_numeric _ _ _ hn (exceptMap_pair_ok _ _ _ h)
        | exact handleAfter_numeric _ _ _ hn (exceptMap_pair_ok _ _ _ h)
        | exact handleBefore_numeric _ _ _ hn (exceptMap_pair_ok _ _ _ h)
    · simp only [handleSubCriteriaAux] at h
      repeat' split at h
      all_goals first
        | exact Except.noConfusion h
        | (rename_i mq2 cc2 orCrit heq
           rw [orFinish_ok_mq _ _ _ _ _ h]
           exact ih3 _ _ _ _ _ _ hn heq)
    · simp only [subFoldAux] at h
      repeat' split at h
      all_goals first
        | exact Except.noConfusion h
        | (injection h with h1; rw [← h1]; exact hn)
        | (rename_i mq2 cc2 heq
           exact ih3 _ _ _ _ _ _ (ih1 _ _ _ _ hn heq) h)

/-- C6: every descriptor the compiler returns carries JavaScript numbers in
its limit and skip fields. -/
theorem c6_limit_skip_amended (q : RQLArg) (d : MongoQuery)
    (h : convertRQLQuery q = .ok d) :
    jsTypeofNumber d.limit = true ∧ jsTypeofNumber d.skip = true := by
  unfold convertRQLQuery at h
  split at h
  · exact absurd h (by simp)
  · split at h
    · exact absurd h (by simp)
    · rename_i mq cc heq
      injection h with h1
      unfold parseRQLObj at heq
      have hmq := (compileNumeric (compileFuel q)).1 getDefaultMongoQuery
        getDefaultMongoQuery.criteria q (mq, cc) rfl heq
      rw [← h1]
      simp only [mqNumeric, Bool.and_eq_true] at hmq
      exact hmq

theorem c6_limit_skip_witness :
    convertRQLQuery (.node "limit" (.ofList [.value (.num 5 0), .value (.num 2 0)]))
      = .ok ⟨"", "", .num 2 0, .num 5 0, [], [], []⟩
    ∧ (jsTypeofNumber (MongoQuery.limit ⟨"", "", .num 2 0, .num 5 0, [], [], []⟩) = true
       ∧ jsTypeofNumber (MongoQuery.skip ⟨"", "", .num 2 0, .num 5 0, [], [], []⟩) = true) :=
  ⟨rfl, c6_limit_skip_amended
    (.node "limit" (.ofList [.value (.num 5 0), .value (.num 2 0)])) _ rfl⟩
